import Mathlib

/-!
# Verification of the rt2 chat relay

Shallow embedding of the rt2 repository (a minimal real-time chat relay):

* the stream relay server (`src/server/src/main.rs`, `main`/`handle_user`):
  a tokio `broadcast` channel of capacity 32 shared by all sessions, each
  session a select-loop over its own socket lines and its hub subscription;
* the datagram relay server (the `UdpSocket` variant in the same file):
  a single receive loop over a registry `HashMap<SocketAddr, String>`;
* the client network bridge and the character-level input editor
  (`src/app/src/main.rs`).

Machine integers that matter (queue positions, byte offsets) are modelled as
`Nat`; none of the modelled arithmetic can overflow in the source (positions
are `u64`-like cursors, offsets bounded by string length).
-/

namespace RT2

/-- The wire message type `NetMessage` of `src/app/src/main.rs` and of the
datagram server variant in `src/server/src/main.rs`:
`Join { username }`, `Leave { username }`, `Chat { username, content }`. -/
inductive NetMessage where
  | join (username : String)
  | leave (username : String)
  | chat (username : String) (content : String)
deriving DecidableEq, Repr

/-! ## Stream relay server: the broadcast hub

`main` creates `broadcast::channel::<String>(32)`.  A tokio broadcast
channel keeps the last `capacity` sent values in a ring; each receiver holds
a cursor into the send history.  `send` appends and never waits on
receivers.  `recv` on a receiver whose cursor has fallen more than
`capacity` behind returns `RecvError::Lagged`, repositioning the cursor to
the oldest retained value.  We model the channel by its full send history
plus the capacity, and a receiver by its cursor. -/

structure Hub where
  capacity : Nat
  history : List String
deriving DecidableEq

/-- `Sender::send`: append to the history.  The tokio call returns
immediately (it only ever drops the oldest entry of the ring for lagging
receivers); it never blocks on a receiver's backlog. -/
def hubSend (ch : Hub) (msg : String) : Hub :=
  ⟨ch.capacity, ch.history ++ [msg]⟩

/-- Result of `Receiver::recv` when it completes: a value, a `Lagged` error
carrying the number of skipped messages, or (for modelling) `empty` when no
message is pending and the real call would stay pending. -/
inductive RecvResult where
  | msg (s : String)
  | lagged (missed : Nat)
  | empty
deriving DecidableEq

/-- `Receiver::recv` for a receiver at cursor `pos`: pending if caught up;
`Lagged` if more than `capacity` behind (cursor jumps to the oldest retained
message, `history.length - capacity`); otherwise the message at the cursor. -/
def hubRecv (ch : Hub) (pos : Nat) : RecvResult × Nat :=
  if ch.history.length ≤ pos then (.empty, pos)
  else if ch.capacity < ch.history.length - pos then
    (.lagged (ch.history.length - ch.capacity - pos), ch.history.length - ch.capacity)
  else (.msg (ch.history.getD pos ""), pos + 1)

/-- Outcome of the `peer_msg = rx.recv()` arm of `handle_user`'s select
loop: either the text was forwarded verbatim to this connection's sink
(`sink.send(peer_msg?)` with `peer_msg = Ok(text)`), or `peer_msg?`
propagated a receive error and `handle_user` returned `Err`, ending the
session. -/
inductive HubArmResult where
  | forwarded (sink : List String) (pos : Nat)
  | sessionError
deriving DecidableEq

/-- The hub-subscription arm of `handle_user`: `sink.send(peer_msg?)`.
`none` models the arm not being ready (no pending message, `recv` stays
pending so `select!` takes the other arm). -/
def hubArm (ch : Hub) (pos : Nat) (sink : List String) : Option HubArmResult :=
  match hubRecv ch pos with
  | (.msg m, pos') => some (.forwarded (sink ++ [m]) pos')
  | (.lagged _, _) => some .sessionError
  | (.empty, _) => none

/-- Run the hub arm repeatedly for at most `fuel` deliveries, stopping when
no message is pending; `none` models the session ending in error. -/
def drainSink (ch : Hub) : Nat → Nat → List String → Option (List String × Nat)
  | 0, pos, sink => some (sink, pos)
  | fuel + 1, pos, sink =>
    match hubArm ch pos sink with
    | none => some (sink, pos)
    | some .sessionError => none
    | some (.forwarded sink' pos') => drainSink ch fuel pos' sink'

/-- Drain every message currently pending for the receiver at `pos`. -/
def drainAll (ch : Hub) (pos : Nat) (sink : List String) : Option (List String × Nat) :=
  drainSink ch (ch.history.length - pos) pos sink

/-! ## Stream relay server: the inbound-line arm of `handle_user` -/

/-- What `handle_user` does with one decoded inbound line. -/
inductive InAction where
  | sendHelp
  | quit
  | publish (s : String)
deriving DecidableEq

/-- Rust `str::starts_with` on strings: the first argument begins with the
second.  Because UTF-8 is a prefix-free code, the byte-level test of the
source coincides with this character-level one. -/
def strStartsWith (s p : String) : Bool :=
  p.data.isPrefixOf s.data

/-- The inbound-line dispatch of `handle_user`: `/help` prefix resends the
banner, `/quit` prefix breaks the loop, anything else publishes
`"{name}: {user_msg}"` to the hub. -/
def handleLine (name line : String) : InAction :=
  if strStartsWith line "/help" then .sendHelp
  else if strStartsWith line "/quit" then .quit
  else .publish (name ++ ": " ++ line)

/-- One item yielded by the framed line stream `stream.next()`: a decoded
line, a decode error (the bytes of the line were not valid UTF-8, so
`LinesCodec` yields an `Err` item), or end of stream (`None`). -/
inductive LineEvent where
  | line (s : String)
  | badUtf8
  | eof
deriving DecidableEq

/-- How a session run over a sequence of inbound line events finishes:
still running (events exhausted), ended cleanly (`break` on EOF or
`/quit`), or returned `Err` (a decode error propagated by `msg?`).
Carries the banner lines sent back on this connection and the messages
published to the hub. -/
inductive RunResult where
  | running (sink : List String) (pub : List String)
  | ended (sink : List String) (pub : List String)
  | errored (sink : List String) (pub : List String)
deriving DecidableEq

/-- The inbound-line side of `handle_user`'s loop over a list of stream
events.  `Some(msg) => msg?` propagates a decode error, returning `Err`
from `handle_user`; `None => break` ends the session cleanly. -/
def runSession (name banner : String) (sink pub : List String) :
    List LineEvent → RunResult
  | [] => .running sink pub
  | ev :: evs =>
    match ev with
    | .eof => .ended sink pub
    | .badUtf8 => .errored sink pub
    | .line s =>
      match handleLine name s with
      | .sendHelp => runSession name banner (sink ++ [banner]) pub evs
      | .quit => .ended sink pub
      | .publish m => runSession name banner sink (pub ++ [m]) evs

/-! ## Datagram relay server

The `UdpSocket` variant of `src/server/src/main.rs`: a single receive loop
over `clients : HashMap<SocketAddr, String>`.  We model the registry as an
association list with at most one entry per address (`insert` replaces any
existing binding, as `HashMap::insert` does), and peer addresses as `Nat`.
Since `HashMap` iteration order is unspecified, every theorem about the
broadcast output is stated in terms of membership, never list order. -/

abbrev Registry := List (Nat × String)

/-- `clients.insert(addr, username)`: bind `addr` to `username`, replacing
any previous binding for `addr`. -/
def insertReg (r : Registry) (a : Nat) (n : String) : Registry :=
  (a, n) :: r.filter (fun p => p.1 ≠ a)

/-- `clients.remove(&addr)`: drop the binding for `addr`, if any. -/
def removeReg (r : Registry) (a : Nat) : Registry :=
  r.filter (fun p => p.1 ≠ a)

/-- The name registered for an address, if any. -/
def lookupReg : Registry → Nat → Option String
  | [], _ => none
  | (b, n) :: r, a => if b = a then some n else lookupReg r a

/-- The set (as a list) of registered addresses. -/
def regAddrs (r : Registry) : List Nat :=
  r.map Prod.fst

/-- The addresses `broadcast` iterates over: every registered address other
than the sender (`if *addr != sender`). -/
def broadcastTargets (r : Registry) (sender : Nat) : List Nat :=
  (r.filter (fun p => p.1 ≠ sender)).map Prod.fst

/-- `broadcast(socket, clients, sender, message)`: the message, encoded
once, is sent to each registered address other than `sender`.  We record
the attempted sends as address/message pairs. -/
def broadcast (r : Registry) (sender : Nat) (m : NetMessage) :
    List (Nat × NetMessage) :=
  (broadcastTargets r sender).map (fun a => (a, m))

/-- `broadcast` with the outcome of each `socket.send_to` given by a
failure oracle.  The source discards each send's result
(`let _ = socket.send_to(&data, addr);`), so every target is attempted no
matter which earlier sends failed; the boolean records delivery. -/
def broadcastRun (fails : Nat → Bool) (r : Registry) (sender : Nat)
    (m : NetMessage) : List (Nat × NetMessage × Bool) :=
  (broadcastTargets r sender).map (fun a => (a, m, !fails a))

/-- The match over one decoded `NetMessage` in the datagram server's
receive loop: the updated registry and the attempted sends.
`Join` inserts then broadcasts over the updated registry; `Chat` broadcasts
over the unchanged registry; `Leave` removes then broadcasts over the
updated registry. -/
def dgramStep (r : Registry) (addr : Nat) :
    NetMessage → Registry × List (Nat × NetMessage)
  | .join u =>
    let r' := insertReg r addr u
    (r', broadcast r' addr (.join u))
  | .chat u c =>
    (r, broadcast r addr (.chat u c))
  | .leave u =>
    let r' := removeReg r addr
    (r', broadcast r' addr (.leave u))

/-- One `recv_from` outcome: a datagram from `addr` whose bytes decoded to
`some` message or failed to decode (`serde_json::from_slice` returned
`Err`), or a transport-level receive error. -/
inductive RecvOutcome where
  | ok (addr : Nat) (decoded : Option NetMessage)
  | err
deriving DecidableEq

/-- One iteration of the datagram server's receive loop.  `none` models the
loop aborting: `socket.recv_from(&mut buf).unwrap()` panics on a receive
error.  A datagram that fails to decode falls through the
`if let Ok(msg)` silently. -/
def dgramLoopStep (r : Registry) :
    RecvOutcome → Option (Registry × List (Nat × NetMessage))
  | .err => none
  | .ok _ none => some (r, [])
  | .ok addr (some m) => some (dgramStep r addr m)

/-- The receive loop over a list of outcomes, accumulating attempted
sends; `none` as soon as one iteration panics. -/
def runDgram (r : Registry) (sends : List (Nat × NetMessage)) :
    List RecvOutcome → Option (Registry × List (Nat × NetMessage))
  | [] => some (r, sends)
  | o :: os =>
    match dgramLoopStep r o with
    | none => none
    | some (r', s') => runDgram r' (sends ++ s') os

/-! ## Client network bridge

The network thread of `src/app/src/main.rs`: each loop iteration first
drains the outbound mpsc queue (`while let Ok(msg) = network_rx.try_recv()`
sending each message), then performs one non-blocking `socket.recv` — a
single datagram at most, pushed to the inbound queue if it decodes —
and then sleeps 10 ms.  `wireIn` holds the queued inbound datagrams by
their decode result; `wireOut` records the sends attempted (the source
ignores each send's result: `let _ = socket.send(&data);`). -/

structure BridgeState where
  outbound : List NetMessage
  wireOut : List NetMessage
  wireIn : List (Option NetMessage)
  inbound : List NetMessage
deriving DecidableEq

/-- One iteration of the bridge loop body (between two sleeps). -/
def bridgeIter (s : BridgeState) : BridgeState :=
  let afterSend : BridgeState :=
    { s with outbound := [], wireOut := s.wireOut ++ s.outbound }
  match afterSend.wireIn with
  | [] => afterSend
  | p :: rest =>
    { afterSend with
      wireIn := rest
      inbound := afterSend.inbound ++ (match p with | some m => [m] | none => []) }

/-- One iteration as the claim describes it: after draining the outbound
queue, decode as many complete inbound messages as are available and push
each onto the inbound queue.  Stated from the claim's words, to be compared
with `bridgeIter`. -/
def bridgeIterSpec (s : BridgeState) : BridgeState :=
  { outbound := []
    wireOut := s.wireOut ++ s.outbound
    wireIn := []
    inbound := s.inbound ++ s.wireIn.filterMap id }

/-! ## Client input editor

The character-level editing methods of `App` in `src/app/src/main.rs`.
The Rust `input : String` is modelled by its character sequence; byte
offsets (the domain of `String::insert`) are recovered through each
character's UTF-8 size, so that "inserting at a byte offset that is not a
character boundary" — which panics in Rust — is representable and provably
unreachable. -/

/-- Total UTF-8 byte length of a character sequence. -/
def utf8Len (cs : List Char) : Nat :=
  (cs.map Char.utf8Size).sum

/-- Rust `str::char_indices` starting at byte offset `off`: each character
paired with its byte offset. -/
def char_indices : List Char → Nat → List (Nat × Char)
  | [], _ => []
  | c :: cs, off => (off, c) :: char_indices cs (off + c.utf8Size)

/-- Rust `String::insert(byte_idx, c)` on the character sequence: `none`
models the panic when `byte_idx` is not a character boundary (or past the
end); otherwise the character lands between the characters surrounding the
boundary. -/
def insertAtByte (cs : List Char) (b : Nat) (c : Char) : Option (List Char) :=
  if b = 0 then some (c :: cs)
  else
    match cs with
    | [] => none
    | d :: cs' =>
      if d.utf8Size ≤ b then (insertAtByte cs' (b - d.utf8Size) c).map (d :: ·)
      else none

/-- The `App` editing state: the input line and the cursor's character
index (`character_index`). -/
structure App where
  input : List Char
  character_index : Nat
deriving DecidableEq

/-- `App::new`: empty input, cursor at 0. -/
def appNew : App :=
  ⟨[], 0⟩

/-- `App::clamp_cursor`: `new_cursor_pos.clamp(0, self.input.chars().count())`. -/
def clamp_cursor (a : App) (p : Nat) : Nat :=
  min p a.input.length

/-- `App::move_cursor_left`: saturating decrement, clamped. -/
def move_cursor_left (a : App) : App :=
  { a with character_index := clamp_cursor a (a.character_index - 1) }

/-- `App::move_cursor_right`: increment, clamped. -/
def move_cursor_right (a : App) : App :=
  { a with character_index := clamp_cursor a (a.character_index + 1) }

/-- `App::byte_index`: the byte offset of the `character_index`-th
character, or the total byte length when the cursor sits past the last
character (`.nth(..).unwrap_or(self.input.len())`). -/
def byte_index (a : App) : Nat :=
  match (char_indices a.input 0).get? a.character_index with
  | some (i, _) => i
  | none => utf8Len a.input

/-- `App::enter_char`: insert at `byte_index`, then move right.  `none`
models the `String::insert` panic on a non-boundary byte offset. -/
def enter_char (a : App) (c : Char) : Option App :=
  (insertAtByte a.input (byte_index a) c).map
    (fun l => move_cursor_right { a with input := l })

/-- `App::delete_char`: when the cursor is not at 0, keep the characters
before the one left of the cursor and the characters from the cursor on,
then move left. -/
def delete_char (a : App) : App :=
  if a.character_index ≠ 0 then
    let input' := a.input.take (a.character_index - 1) ++ a.input.drop a.character_index
    move_cursor_left { a with input := input' }
  else a

/-- The editing operations of the claim. -/
inductive EditOp where
  | left
  | right
  | insert (c : Char)
  | deleteBefore
deriving DecidableEq

/-- Apply one editing operation; `none` models a panic. -/
def applyOp (a : App) : EditOp → Option App
  | .left => some (move_cursor_left a)
  | .right => some (move_cursor_right a)
  | .insert c => enter_char a c
  | .deleteBefore => some (delete_char a)

/-- Apply a sequence of editing operations, stopping at a panic. -/
def applyOps (a : App) : List EditOp → Option App
  | [] => some a
  | op :: ops =>
    match applyOp a op with
    | none => none
    | some a' => applyOps a' ops

/-! ## Line codec

Modelled from the spec: the Line Codec is `tokio_util::codec::LinesCodec`,
a dependency whose source is not part of this repository.  Per the spec,
writing appends `\n` to any outgoing message not already
newline-terminated; reading takes everything up to the next `\n`, strips
the `\n`, and strips one trailing `\r` if present. -/

/-- Modelled from the spec: Line Codec encoding — append the terminator if
absent. -/
def lineEncode (l : List Char) : List Char :=
  if l.getLast? = some '\n' then l else l ++ ['\n']

/-- Strip one trailing carriage return, if present. -/
def stripCR (l : List Char) : List Char :=
  if l.getLast? = some '\r' then l.dropLast else l

/-- Modelled from the spec: Line Codec decoding of the first line — if the
buffer holds a `\n`, the line is everything before it, with a trailing
`\r` stripped; otherwise no complete line is available yet. -/
def lineDecodeFirst (l : List Char) : Option (List Char) :=
  if '\n' ∈ l then some (stripCR (l.takeWhile (· ≠ '\n'))) else none

/-! ## Helper lemmas -/

theorem drainSink_complete (ch : Hub) :
    ∀ (fuel pos : Nat) (sink : List String),
      fuel = ch.history.length - pos →
      pos ≤ ch.history.length →
      ch.history.length - pos ≤ ch.capacity →
      drainSink ch fuel pos sink = some (sink ++ ch.history.drop pos, ch.history.length) := by
  intro fuel
  induction fuel with
  | zero =>
    intro pos sink hfuel hle _
    have hpos : pos = ch.history.length := by omega
    subst hpos
    simp [drainSink]
  | succ n ih =>
    intro pos sink hfuel hle hcap
    have hlt : pos < ch.history.length := by omega
    have harm : hubArm ch pos sink =
        some (.forwarded (sink ++ [ch.history.getD pos ""]) (pos + 1)) := by
      unfold hubArm hubRecv
      rw [if_neg (by omega), if_neg (by omega)]
    rw [drainSink, harm]
    dsimp only
    rw [ih (pos + 1) (sink ++ [ch.history.getD pos ""]) (by omega) (by omega) (by omega)]
    have hdrop : ch.history.drop pos = ch.history.getD pos "" :: ch.history.drop (pos + 1) := by
      rw [List.drop_eq_getElem_cons hlt]
      congr 1
      simp [List.getD, List.getElem?_eq_getElem hlt]
    rw [hdrop]
    simp

theorem drainAll_complete (ch : Hub) (pos : Nat) (sink : List String)
    (hle : pos ≤ ch.history.length)
    (hcap : ch.history.length - pos ≤ ch.capacity) :
    drainAll ch pos sink = some (sink ++ ch.history.drop pos, ch.history.length) :=
  drainSink_complete ch _ pos sink rfl hle hcap

/-! ## Claims about the stream relay server -/

/-- C1 counterexample.  Hub initially empty, capacity 32; client A
(name `user-aaaaaa`) subscribed at cursor 0.  A's line `hello` is published
as `user-aaaaaa: hello`; draining A's *own* subscription afterwards
delivers that very line into A's own sink — the session loop forwards
every hub delivery, its own included, so A does receive its own message
back, contrary to the claim. -/
theorem stream_relay_echo_counterexample :
    handleLine "user-aaaaaa" "hello" = .publish "user-aaaaaa: hello" ∧
    drainAll (hubSend ⟨32, []⟩ "user-aaaaaa: hello") 0 [] =
      some (["user-aaaaaa: hello"], 1) ∧
    (["user-aaaaaa: hello"] : List String) ≠ [] := by
  decide

/-- C1 (amended): when client A publishes a non-command line while A and B
are both subscribed and caught up, B's session forwards exactly one line,
`"<A's name>: <line>"`, verbatim to B's connection — and A's own session
forwards the same line back to A's connection, because A's hub
subscription also receives it. -/
theorem stream_relay_delivery (name line : String) (ch : Hub)
    (posA posB : Nat) (sinkA sinkB : List String)
    (hcap : 1 ≤ ch.capacity)
    (hA : posA = ch.history.length) (hB : posB = ch.history.length)
    (hh : strStartsWith line "/help" = false)
    (hq : strStartsWith line "/quit" = false) :
    handleLine name line = .publish (name ++ ": " ++ line) ∧
    drainAll (hubSend ch (name ++ ": " ++ line)) posB sinkB =
      some (sinkB ++ [name ++ ": " ++ line], ch.history.length + 1) ∧
    drainAll (hubSend ch (name ++ ": " ++ line)) posA sinkA =
      some (sinkA ++ [name ++ ": " ++ line], ch.history.length + 1) := by
  subst hA hB
  refine ⟨by simp [handleLine, hh, hq], ?_, ?_⟩ <;>
  · rw [drainAll_complete (hubSend ch (name ++ ": " ++ line)) ch.history.length _
      (by simp [hubSend]) (by simp [hubSend]; omega)]
    simp [hubSend]

/-- C1 witness: the amended delivery theorem at hub ⟨32, []⟩, name
`user-aaaaaa`, line `hello`, both cursors 0, both sinks empty. -/
theorem stream_relay_delivery_witness :
    handleLine "user-aaaaaa" "hello" = .publish ("user-aaaaaa" ++ ": " ++ "hello") ∧
    drainAll (hubSend ⟨32, []⟩ ("user-aaaaaa" ++ ": " ++ "hello")) 0 [] =
      some ([] ++ ["user-aaaaaa" ++ ": " ++ "hello"], (Hub.mk 32 []).history.length + 1) ∧
    drainAll (hubSend ⟨32, []⟩ ("user-aaaaaa" ++ ": " ++ "hello")) 0 [] =
      some ([] ++ ["user-aaaaaa" ++ ": " ++ "hello"], (Hub.mk 32 []).history.length + 1) :=
  stream_relay_delivery "user-aaaaaa" "hello" ⟨32, []⟩ 0 0 [] []
    (by decide) (by decide) (by decide) (by decide) (by decide)

/-- C2 counterexample.  Capacity-32 channel, 33 messages sent, subscriber
still at cursor 0: its `recv` returns a `Lagged` error, and the session
loop (`sink.send(peer_msg?)`) propagates it, ending that session — the
overflow *is* observable as an error to the lagging subscriber, contrary
to the claim. -/
theorem hub_overflow_counterexample :
    hubArm ⟨32, List.replicate 33 "m"⟩ 0 [] = some .sessionError := by
  decide

/-- C2 (amended): publishing always returns (it just appends to the
history, independent of any subscriber's backlog); when a subscriber's
backlog exceeds the capacity, its `recv` yields `Lagged` and its cursor
jumps to the oldest retained message, so exactly the oldest surplus
messages are dropped and the newest `capacity` remain deliverable; any
subscriber within capacity still receives normally — but the lagging
subscriber's session loop propagates the `Lagged` error and terminates. -/
theorem hub_overflow_behaviour (ch : Hub) (pos : Nat) (sink : List String)
    (hlag : ch.capacity < ch.history.length - pos) :
    (∀ m, (hubSend ch m).history = ch.history ++ [m]) ∧
    hubRecv ch pos =
      (.lagged (ch.history.length - ch.capacity - pos), ch.history.length - ch.capacity) ∧
    hubArm ch pos sink = some .sessionError ∧
    (∀ p, p < ch.history.length → ch.history.length - p ≤ ch.capacity →
      hubRecv ch p = (.msg (ch.history.getD p ""), p + 1)) ∧
    drainAll ch (ch.history.length - ch.capacity) [] =
      some (ch.history.drop (ch.history.length - ch.capacity), ch.history.length) := by
  have hrecv : hubRecv ch pos =
      (.lagged (ch.history.length - ch.capacity - pos), ch.history.length - ch.capacity) := by
    unfold hubRecv
    rw [if_neg (by omega), if_pos (by omega)]
  refine ⟨fun m => rfl, hrecv, ?_, ?_, ?_⟩
  · unfold hubArm
    rw [hrecv]
  · intro p hp hcap
    unfold hubRecv
    rw [if_neg (by omega), if_neg (by omega)]
  · rw [drainAll_complete ch (ch.history.length - ch.capacity) [] (by omega) (by omega)]
    simp

/-- C2 witness: the overflow theorem at the concrete lagged channel of the
counterexample's shape — capacity 2, five messages, cursor 0. -/
theorem hub_overflow_behaviour_witness :
    (∀ m, (hubSend ⟨2, ["a", "b", "c", "d", "e"]⟩ m).history = ["a", "b", "c", "d", "e"] ++ [m]) ∧
    hubRecv ⟨2, ["a", "b", "c", "d", "e"]⟩ 0 = (.lagged (5 - 2 - 0), 5 - 2) ∧
    hubArm ⟨2, ["a", "b", "c", "d", "e"]⟩ 0 [] = some .sessionError ∧
    (∀ p, p < 5 → 5 - p ≤ 2 →
      hubRecv ⟨2, ["a", "b", "c", "d", "e"]⟩ p =
        (.msg ((["a", "b", "c", "d", "e"] : List String).getD p ""), p + 1)) ∧
    drainAll ⟨2, ["a", "b", "c", "d", "e"]⟩ (5 - 2) [] =
      some ((["a", "b", "c", "d", "e"] : List String).drop (5 - 2), 5) :=
  hub_overflow_behaviour ⟨2, ["a", "b", "c", "d", "e"]⟩ 0 [] (by decide)

/-- C3 counterexample.  A session that reads an invalid-UTF-8 line followed
by a valid line `hi` does not continue: it finishes in the errored state
with nothing further processed (in particular `user-aaaaaa: hi` is never
published), because `msg?` propagates the decode error out of
`handle_user`, contrary to the claim that only that line is discarded. -/
theorem stream_badline_counterexample :
    runSession "user-aaaaaa" "B" [] [] [.badUtf8, .line "hi"] = .errored [] [] := by
  decide

/-- C3 (amended): an inbound line that fails UTF-8 decoding terminates the
session with an error — the decode error is propagated by `msg?`, so no
subsequent line of that connection is processed. -/
theorem stream_badline_terminates (name banner : String) (sink pub : List String)
    (evs : List LineEvent) :
    runSession name banner sink pub (.badUtf8 :: evs) = .errored sink pub :=
  rfl

/-! ## Claims about the client network bridge -/

theorem bridgeIter_eq (s : BridgeState) :
    bridgeIter s =
      ⟨[], s.wireOut ++ s.outbound, s.wireIn.drop 1,
        s.inbound ++ (s.wireIn.take 1).filterMap id⟩ := by
  cases s with
  | mk outbound wireOut wireIn inbound =>
    cases wireIn with
    | nil => simp [bridgeIter]
    | cons p rest =>
      cases p with
      | none => simp [bridgeIter]
      | some m => simp [bridgeIter]

theorem filterMap_take_succ (l : List (Option NetMessage)) (n : Nat) :
    (l.take 1).filterMap id ++ ((l.drop 1).take n).filterMap id =
      (l.take (n + 1)).filterMap id := by
  cases l with
  | nil => simp
  | cons p rest => cases p <;> simp [List.take_succ_cons]

theorem bridgeIter_iterate_of_drained (n : Nat) :
    ∀ s : BridgeState, s.outbound = [] →
      bridgeIter^[n] s =
        ⟨[], s.wireOut, s.wireIn.drop n, s.inbound ++ (s.wireIn.take n).filterMap id⟩ := by
  induction n with
  | zero =>
    intro s hs
    cases s
    simp_all
  | succ n ih =>
    intro s hs
    rw [Function.iterate_succ_apply, ih (bridgeIter s) (by rw [bridgeIter_eq]),
      bridgeIter_eq]
    simp only [hs, List.append_nil, List.drop_drop, Nat.one_add, List.append_assoc,
      filterMap_take_succ]

/-- C4 counterexample.  Two decodable datagrams are queued and the
outbound queue is empty: one bridge iteration pushes only the first onto
the inbound queue (a single non-blocking `recv` per iteration), whereas
the claim's drain-all reading would push both. -/
theorem bridge_iter_counterexample :
    bridgeIter ⟨[], [], [some (.chat "Alice" "x"), some (.chat "Alice" "y")], []⟩ =
      ⟨[], [], [some (.chat "Alice" "y")], [.chat "Alice" "x"]⟩ ∧
    bridgeIterSpec ⟨[], [], [some (.chat "Alice" "x"), some (.chat "Alice" "y")], []⟩ =
      ⟨[], [], [], [.chat "Alice" "x", .chat "Alice" "y"]⟩ ∧
    bridgeIter ⟨[], [], [some (.chat "Alice" "x"), some (.chat "Alice" "y")], []⟩ ≠
      bridgeIterSpec ⟨[], [], [some (.chat "Alice" "x"), some (.chat "Alice" "y")], []⟩ := by
  decide

/-- C4 (amended): each iteration drains the outbound queue completely,
writing every pending item in order (write results are discarded by the
source, so failures are swallowed), then performs one non-blocking read,
consuming at most ONE queued datagram — pushed onto the inbound queue only
if it decodes — and then sleeps; over `n + 1` quiet iterations exactly the
first `n + 1` queued datagrams have been consumed, their decodable ones
pushed in order. -/
theorem bridge_iter_behaviour (s : BridgeState) (n : Nat) :
    bridgeIter s =
      ⟨[], s.wireOut ++ s.outbound, s.wireIn.drop 1,
        s.inbound ++ (s.wireIn.take 1).filterMap id⟩ ∧
    ((s.wireIn.take 1).filterMap id).length ≤ 1 ∧
    bridgeIter^[n + 1] s =
      ⟨[], s.wireOut ++ s.outbound, s.wireIn.drop (n + 1),
        s.inbound ++ (s.wireIn.take (n + 1)).filterMap id⟩ := by
  refine ⟨bridgeIter_eq s, ?_, ?_⟩
  · calc ((s.wireIn.take 1).filterMap id).length ≤ (s.wireIn.take 1).length :=
          List.length_filterMap_le _ _
      _ ≤ 1 := by simp [List.length_take_le 1 s.wireIn]
  · rw [Function.iterate_succ_apply,
      bridgeIter_iterate_of_drained n (bridgeIter s) (by rw [bridgeIter_eq]),
      bridgeIter_eq]
    simp only [List.drop_drop, Nat.one_add, List.append_assoc, filterMap_take_succ]

/-! ## Claims about the datagram relay server -/

theorem mem_broadcastTargets (r : Registry) (s a : Nat) :
    a ∈ broadcastTargets r s ↔ (a ∈ regAddrs r ∧ a ≠ s) := by
  simp only [broadcastTargets, regAddrs, List.mem_map, List.mem_filter,
    decide_eq_true_eq]
  constructor
  · rintro ⟨q, ⟨hq, hqs⟩, rfl⟩
    exact ⟨⟨q, hq, rfl⟩, hqs⟩
  · rintro ⟨⟨q, hq, rfl⟩, hqs⟩
    exact ⟨q, ⟨hq, hqs⟩, rfl⟩

theorem mem_broadcast (r : Registry) (s : Nat) (m : NetMessage)
    (p : Nat × NetMessage) :
    p ∈ broadcast r s m ↔ (p.1 ∈ regAddrs r ∧ p.1 ≠ s ∧ p.2 = m) := by
  obtain ⟨a, msg⟩ := p
  simp only [broadcast, List.mem_map, Prod.mk.injEq]
  constructor
  · rintro ⟨b, hb, rfl, rfl⟩
    have h := (mem_broadcastTargets r s b).1 hb
    exact ⟨h.1, h.2, rfl⟩
  · rintro ⟨ha, hs, rfl⟩
    exact ⟨a, (mem_broadcastTargets r s a).2 ⟨ha, hs⟩, rfl, rfl⟩

theorem lookupReg_filter_ne (r : Registry) (a b : Nat) (hba : b ≠ a) :
    lookupReg (r.filter (fun p => p.1 ≠ a)) b = lookupReg r b := by
  induction r with
  | nil => rfl
  | cons q r ih =>
    by_cases hqa : q.1 = a
    · have hqb : q.1 ≠ b := by omega
      cases q
      simp_all [lookupReg]
    · cases q with
      | mk k n =>
        by_cases hkb : k = b <;> simp_all [lookupReg]

theorem lookupReg_filter_self (r : Registry) (a : Nat) :
    lookupReg (r.filter (fun p => p.1 ≠ a)) a = none := by
  induction r with
  | nil => rfl
  | cons q r ih =>
    cases q with
    | mk k n =>
      by_cases hka : k = a <;> simp_all [lookupReg]

theorem mem_regAddrs_insert (r : Registry) (a : Nat) (n : String) (b : Nat) :
    b ∈ regAddrs (insertReg r a n) ↔ (b = a ∨ b ∈ regAddrs r) := by
  simp only [insertReg, regAddrs, List.map_cons, List.mem_cons, List.mem_map,
    List.mem_filter, decide_eq_true_eq]
  constructor
  · rintro (rfl | ⟨q, ⟨hq, _⟩, rfl⟩)
    · exact Or.inl rfl
    · exact Or.inr ⟨q, hq, rfl⟩
  · rintro (rfl | ⟨q, hq, rfl⟩)
    · exact Or.inl rfl
    · by_cases hqa : q.1 = a
      · exact Or.inl hqa
      · exact Or.inr ⟨q, ⟨hq, hqa⟩, rfl⟩

/-- C5 counterexample.  The datagram receive loop on a transport-level
receive error: `socket.recv_from(&mut buf).unwrap()` panics, aborting the
loop — modelled as the step having no continuation — contrary to the claim
that the receive loop never panics on a receive error. -/
theorem dgram_recv_error_counterexample :
    dgramLoopStep [(1, "bob")] .err = none ∧
    (dgramLoopStep [(1, "bob")] RecvOutcome.err).isSome = false := by
  decide

/-- C5 (amended): during steady state a per-message *write* failure is
skipped — `broadcast` discards each `send_to` result, so every other
registered address is still attempted no matter which sends fail, and an
iteration that received a datagram (decodable or not) always continues —
but a *receive* error aborts the datagram receive loop, because the
`recv_from` result is unwrapped. -/
theorem dgram_error_handling (fails : Nat → Bool) (r : Registry) (sender : Nat)
    (m : NetMessage) :
    ((broadcastRun fails r sender m).map (fun p => p.1) = broadcastTargets r sender) ∧
    (∀ p, p ∈ broadcastRun fails r sender m → p.2.1 = m) ∧
    dgramLoopStep r .err = none ∧
    (∀ addr d, (dgramLoopStep r (.ok addr d)).isSome = true) := by
  refine ⟨?_, ?_, rfl, ?_⟩
  · simp [broadcastRun, List.map_map, Function.comp_def]
  · intro p hp
    simp only [broadcastRun, List.mem_map] at hp
    obtain ⟨a, _, rfl⟩ := hp
    rfl
  · intro addr d
    cases d <;> simp [dgramLoopStep]

/-- C5 witness: the error-handling theorem at a concrete registry, sender,
message and a failure oracle that fails every send. -/
theorem dgram_error_handling_witness :
    ((broadcastRun (fun _ => true) [(1, "bob"), (2, "eve")] 1 (.chat "bob" "hi")).map
        (fun p => p.1) = broadcastTargets [(1, "bob"), (2, "eve")] 1) ∧
    (∀ p, p ∈ broadcastRun (fun _ => true) [(1, "bob"), (2, "eve")] 1 (.chat "bob" "hi") →
      p.2.1 = NetMessage.chat "bob" "hi") ∧
    dgramLoopStep [(1, "bob"), (2, "eve")] .err = none ∧
    (∀ addr d, (dgramLoopStep [(1, "bob"), (2, "eve")] (.ok addr d)).isSome = true) :=
  dgram_error_handling (fun _ => true) [(1, "bob"), (2, "eve")] 1 (.chat "bob" "hi")

/-- C6: the datagram step function.  `Join{name}` binds the sender's
address to `name` (other bindings untouched) and the join is sent exactly
to the other addresses of the updated registry; `Chat{name, content}` is
sent unchanged exactly to the other registered addresses, the registry
untouched; `Leave{name}` removes the sender's binding and the leave is
sent exactly to the other addresses of the updated registry. -/
theorem dgram_step_characterization (r : Registry) (addr : Nat)
    (name content : String) :
    ((dgramStep r addr (.join name)).1 = insertReg r addr name ∧
      lookupReg (dgramStep r addr (.join name)).1 addr = some name ∧
      (∀ b, b ≠ addr → lookupReg (dgramStep r addr (.join name)).1 b = lookupReg r b) ∧
      (∀ p, p ∈ (dgramStep r addr (.join name)).2 ↔
        (p.1 ∈ regAddrs (insertReg r addr name) ∧ p.1 ≠ addr ∧
          p.2 = NetMessage.join name))) ∧
    ((dgramStep r addr (.chat name content)).1 = r ∧
      (∀ p, p ∈ (dgramStep r addr (.chat name content)).2 ↔
        (p.1 ∈ regAddrs r ∧ p.1 ≠ addr ∧ p.2 = NetMessage.chat name content))) ∧
    ((dgramStep r addr (.leave name)).1 = removeReg r addr ∧
      lookupReg (dgramStep r addr (.leave name)).1 addr = none ∧
      (∀ b, b ≠ addr → lookupReg (dgramStep r addr (.leave name)).1 b = lookupReg r b) ∧
      (∀ p, p ∈ (dgramStep r addr (.leave name)).2 ↔
        (p.1 ∈ regAddrs (removeReg r addr) ∧ p.1 ≠ addr ∧
          p.2 = NetMessage.leave name))) := by
  refine ⟨⟨rfl, ?_, ?_, ?_⟩, ⟨rfl, ?_⟩, ⟨rfl, ?_, ?_, ?_⟩⟩
  · show lookupReg (insertReg r addr name) addr = some name
    simp [insertReg, lookupReg]
  · intro b hb
    show lookupReg (insertReg r addr name) b = lookupReg r b
    simp only [insertReg, lookupReg, if_neg (by omega : addr ≠ b)]
    exact lookupReg_filter_ne r addr b hb
  · intro p
    exact mem_broadcast (insertReg r addr name) addr (.join name) p
  · intro p
    exact mem_broadcast r addr (.chat name content) p
  · show lookupReg (removeReg r addr) addr = none
    exact lookupReg_filter_self r addr
  · intro b hb
    exact lookupReg_filter_ne r addr b hb
  · intro p
    exact mem_broadcast (removeReg r addr) addr (.leave name) p

/-- C6 witness: the step characterization at the registry
`[(1, bob), (2, eve)]`, sender address 2, name `eve`, content `hi`. -/
theorem dgram_step_characterization_witness :
    ((dgramStep [(1, "bob"), (2, "old")] 2 (.join "eve")).1 =
        insertReg [(1, "bob"), (2, "old")] 2 "eve" ∧
      lookupReg (dgramStep [(1, "bob"), (2, "old")] 2 (.join "eve")).1 2 = some "eve" ∧
      (∀ b, b ≠ 2 → lookupReg (dgramStep [(1, "bob"), (2, "old")] 2 (.join "eve")).1 b =
        lookupReg [(1, "bob"), (2, "old")] b) ∧
      (∀ p, p ∈ (dgramStep [(1, "bob"), (2, "old")] 2 (.join "eve")).2 ↔
        (p.1 ∈ regAddrs (insertReg [(1, "bob"), (2, "old")] 2 "eve") ∧ p.1 ≠ 2 ∧
          p.2 = NetMessage.join "eve"))) ∧
    ((dgramStep [(1, "bob"), (2, "old")] 2 (.chat "eve" "hi")).1 = [(1, "bob"), (2, "old")] ∧
      (∀ p, p ∈ (dgramStep [(1, "bob"), (2, "old")] 2 (.chat "eve" "hi")).2 ↔
        (p.1 ∈ regAddrs [(1, "bob"), (2, "old")] ∧ p.1 ≠ 2 ∧
          p.2 = NetMessage.chat "eve" "hi"))) ∧
    ((dgramStep [(1, "bob"), (2, "old")] 2 (.leave "eve")).1 =
        removeReg [(1, "bob"), (2, "old")] 2 ∧
      lookupReg (dgramStep [(1, "bob"), (2, "old")] 2 (.leave "eve")).1 2 = none ∧
      (∀ b, b ≠ 2 → lookupReg (dgramStep [(1, "bob"), (2, "old")] 2 (.leave "eve")).1 b =
        lookupReg [(1, "bob"), (2, "old")] b) ∧
      (∀ p, p ∈ (dgramStep [(1, "bob"), (2, "old")] 2 (.leave "eve")).2 ↔
        (p.1 ∈ regAddrs (removeReg [(1, "bob"), (2, "old")] 2) ∧ p.1 ≠ 2 ∧
          p.2 = NetMessage.leave "eve"))) :=
  dgram_step_characterization [(1, "bob"), (2, "old")] 2 "eve" "hi"

/-- C7: a datagram that fails to decode is discarded silently — the loop
does not abort, the registry is unchanged, nothing is sent — and running
the loop on the remaining outcomes proceeds exactly as if the malformed
datagram had never arrived. -/
theorem dgram_malformed_discarded (r : Registry) (sends : List (Nat × NetMessage))
    (addr : Nat) (evs : List RecvOutcome) :
    dgramLoopStep r (.ok addr none) = some (r, []) ∧
    runDgram r sends (.ok addr none :: evs) = runDgram r sends evs := by
  refine ⟨rfl, ?_⟩
  show runDgram r (sends ++ []) evs = runDgram r sends evs
  rw [List.append_nil]

/-- C7 witness: a malformed datagram from address 7 followed by a valid
join from the same address. -/
theorem dgram_malformed_discarded_witness :
    dgramLoopStep [] (.ok 7 none) = some ([], []) ∧
    runDgram [] [] (.ok 7 none :: [.ok 7 (some (.join "bob"))]) =
      runDgram [] [] [.ok 7 (some (.join "bob"))] :=
  dgram_malformed_discarded [] [] 7 [.ok 7 (some (.join "bob"))]

/-- C10: a decoded `Chat` leaves the registry unchanged and is relayed
with its carried username and content exactly as received — for *every*
registry, sender address, and username, in particular when the sender's
address is not registered at all and when the carried username differs
from the name registered for that address — and it reaches every other
registered address. -/
theorem dgram_chat_no_registration (r : Registry) (addr : Nat) (u c : String) :
    (dgramStep r addr (.chat u c)).1 = r ∧
    (∀ p, p ∈ (dgramStep r addr (.chat u c)).2 → p.2 = NetMessage.chat u c) ∧
    (∀ a, a ∈ regAddrs r → a ≠ addr →
      (a, NetMessage.chat u c) ∈ (dgramStep r addr (.chat u c)).2) := by
  refine ⟨rfl, ?_, ?_⟩
  · intro p hp
    exact ((mem_broadcast r addr (.chat u c) p).1 hp).2.2
  · intro a ha hne
    exact (mem_broadcast r addr (.chat u c) (a, .chat u c)).2 ⟨ha, hne, rfl⟩

/-- C10 witness: registry `[(1, bob)]`, unregistered sender address 2,
carried username `mallory`: the chat is still relayed, as-is, to
address 1. -/
theorem dgram_chat_no_registration_witness :
    (dgramStep [(1, "bob")] 2 (.chat "mallory" "hi")).1 = [(1, "bob")] ∧
    (∀ p, p ∈ (dgramStep [(1, "bob")] 2 (.chat "mallory" "hi")).2 →
      p.2 = NetMessage.chat "mallory" "hi") ∧
    (∀ a, a ∈ regAddrs [(1, "bob")] → a ≠ 2 →
      (a, NetMessage.chat "mallory" "hi") ∈ (dgramStep [(1, "bob")] 2 (.chat "mallory" "hi")).2) :=
  dgram_chat_no_registration [(1, "bob")] 2 "mallory" "hi"

/-! ## Claims about the client input editor -/

theorem char_indices_get? (cs : List Char) :
    ∀ (off i : Nat), (char_indices cs off).get? i =
      (cs.get? i).map (fun c => (off + utf8Len (cs.take i), c)) := by
  induction cs with
  | nil => intro off i; simp [char_indices]
  | cons c cs ih =>
    intro off i
    cases i with
    | zero => simp [char_indices, utf8Len]
    | succ i =>
      simp only [char_indices, List.get?_cons_succ, ih (off + c.utf8Size) i,
        List.take_succ_cons, utf8Len, List.map_cons, List.sum_cons]
      cases cs.get? i <;> simp [Nat.add_assoc]

theorem byte_index_eq (a : App) :
    byte_index a = utf8Len (a.input.take a.character_index) := by
  unfold byte_index
  rw [char_indices_get? a.input 0 a.character_index]
  cases h : a.input.get? a.character_index with
  | some c => simp
  | none =>
    have hlen : a.input.length ≤ a.character_index := List.get?_eq_none.1 h
    simp [List.take_of_length_le hlen]

theorem insertAtByte_boundary (cs : List Char) :
    ∀ (k : Nat), k ≤ cs.length →
      ∀ c, insertAtByte cs (utf8Len (cs.take k)) c = some (cs.take k ++ c :: cs.drop k) := by
  induction cs with
  | nil =>
    intro k hk c
    have : k = 0 := by simpa using hk
    subst this
    simp [insertAtByte, utf8Len]
  | cons d cs ih =>
    intro k hk c
    cases k with
    | zero => simp [insertAtByte, utf8Len]
    | succ k =>
      have hpos : 0 < d.utf8Size := d.utf8Size_pos
      have hb : utf8Len ((d :: cs).take (k + 1)) = d.utf8Size + utf8Len (cs.take k) := by
        simp [utf8Len, List.take_succ_cons]
      rw [hb, insertAtByte]
      rw [if_neg (by omega), if_pos (by omega)]
      have : d.utf8Size + utf8Len (cs.take k) - d.utf8Size = utf8Len (cs.take k) := by omega
      rw [this, ih k (by simpa using hk) c]
      simp

/-- The cursor invariant: the character index never exceeds the character
count of the input. -/
def cursorInv (a : App) : Prop :=
  a.character_index ≤ a.input.length

theorem applyOp_preserves (a : App) (op : EditOp) (h : cursorInv a) :
    ∃ a', applyOp a op = some a' ∧ cursorInv a' := by
  cases op with
  | left =>
    exact ⟨_, rfl, by simp [cursorInv, move_cursor_left, clamp_cursor]⟩
  | right =>
    exact ⟨_, rfl, by simp [cursorInv, move_cursor_right, clamp_cursor]⟩
  | insert c =>
    have hins : enter_char a c =
        some (move_cursor_right
          { a with input :=
              a.input.take a.character_index ++ c :: a.input.drop a.character_index }) := by
      unfold enter_char
      rw [byte_index_eq, insertAtByte_boundary a.input a.character_index h c]
      rfl
    exact ⟨_, hins, by simp [cursorInv, move_cursor_right, clamp_cursor]⟩
  | deleteBefore =>
    refine ⟨_, rfl, ?_⟩
    unfold delete_char
    by_cases h0 : a.character_index ≠ 0
    · simp [h0, cursorInv, move_cursor_left, clamp_cursor]
    · simpa [h0, cursorInv] using h

theorem applyOps_preserves (ops : List EditOp) :
    ∀ (a : App), cursorInv a →
      ∃ a', applyOps a ops = some a' ∧ cursorInv a' := by
  induction ops with
  | nil => intro a h; exact ⟨a, rfl, h⟩
  | cons op ops ih =>
    intro a h
    obtain ⟨a', hstep, hinv⟩ := applyOp_preserves a op h
    obtain ⟨a'', hrest, hinv'⟩ := ih a' hinv
    exact ⟨a'', by rw [applyOps, hstep]; exact hrest, hinv'⟩

/-- C8: starting from any editing state whose cursor is within bounds (in
particular `App::new`), any sequence of character-level edits succeeds —
no insertion ever hits a non-character-boundary byte offset, so no
multi-byte character is ever split — and it ends with the cursor again
within `[0, character_count]`, with the insertion byte offset equal to the
byte length of the whole-character prefix before the cursor. -/
theorem editor_cursor_safety (a : App) (ops : List EditOp)
    (h : a.character_index ≤ a.input.length) :
    ∃ a', applyOps a ops = some a' ∧
      a'.character_index ≤ a'.input.length ∧
      byte_index a' = utf8Len (a'.input.take a'.character_index) := by
  obtain ⟨a', hrun, hinv⟩ := applyOps_preserves ops a h
  exact ⟨a', hrun, hinv, byte_index_eq a'⟩

/-- C8 witness: from the fresh `App::new` state, insert a two-byte
character, move left, insert before it, and delete: every step succeeds
and the bounds hold. -/
theorem editor_cursor_safety_witness :
    ∃ a', applyOps appNew [.insert 'é', .left, .insert 'x', .deleteBefore] = some a' ∧
      a'.character_index ≤ a'.input.length ∧
      byte_index a' = utf8Len (a'.input.take a'.character_index) :=
  editor_cursor_safety appNew [.insert 'é', .left, .insert 'x', .deleteBefore]
    (by decide)

/-! ## Claims about the line codec -/

theorem takeWhile_append_all {p : Char → Bool} (l l' : List Char)
    (h : ∀ x ∈ l, p x = true) :
    (l ++ l').takeWhile p = l ++ l'.takeWhile p := by
  induction l with
  | nil => simp
  | cons c cs ih =>
    have hc : p c = true := h c (List.mem_cons_self c cs)
    simp only [List.cons_append, List.takeWhile_cons, hc, if_true]
    rw [ih (fun x hx => h x (List.mem_cons_of_mem c hx))]

/-- C9 counterexample.  The line `a\r` is valid UTF-8 and contains no
`\n`, yet encode-then-decode yields `a`: decoding strips the trailing
carriage return that belonged to the original line, so the roundtrip is
not the identity. -/
theorem line_codec_roundtrip_counterexample :
    ('\n' ∉ ['a', '\r']) ∧
    lineDecodeFirst (lineEncode ['a', '\r']) = some ['a'] ∧
    (some ['a'] : Option (List Char)) ≠ some ['a', '\r'] := by
  decide

/-- C9 (amended): for every line that contains no `\n` and does not end
with a carriage return, encode-then-decode through the Line Codec yields
the original line unchanged. -/
theorem line_codec_roundtrip (l : List Char)
    (hn : '\n' ∉ l) (hr : l.getLast? ≠ some '\r') :
    lineDecodeFirst (lineEncode l) = some l := by
  have henc : lineEncode l = l ++ ['\n'] := by
    unfold lineEncode
    rw [if_neg]
    intro hlast
    exact hn (List.mem_of_getLast?_eq_some hlast)
  rw [henc]
  unfold lineDecodeFirst
  rw [if_pos (by simp)]
  have htake : ((l ++ ['\n']).takeWhile (· ≠ '\n')) = l := by
    rw [takeWhile_append_all l ['\n'] (fun x hx => by
      simp only [decide_eq_true_eq]
      intro hxeq
      exact hn (hxeq ▸ hx))]
    simp
  rw [htake]
  unfold stripCR
  rw [if_neg hr]

/-- C9 witness: the roundtrip theorem at the line `hi`. -/
theorem line_codec_roundtrip_witness :
    lineDecodeFirst (lineEncode ['h', 'i']) = some ['h', 'i'] :=
  line_codec_roundtrip ['h', 'i'] (by decide) (by decide)

end RT2
